import Mathlib

/-!
Verification of the Mocktopus function-interception synthesis
(src/macros/src/header_builder.rs) and package discovery metadata
(src/mtest/src/package_info.rs).

The Rust string-formatting functions of `header_builder.rs` are embedded as
Lean functions over an abstract parsed signature (mirroring the `syn` data the
source consumes).  The panicking argument-name iterator is embedded in
`Except`, so a panic at synthesis time is an `Except.error`.  On top of the
string layer, the statements emitted into the three resolution branches are
given as an explicit statement list plus a small operational semantics over
bit-pattern slots, used to state the run-time ownership-transfer properties.
-/

namespace Mocktopus

/-- Bit pattern of a Rust value, abstracted. `transmute_copy` is the identity
on bit patterns. -/
abbrev Bits := Nat

/-- `syn::Pat` as used by `iter_fn_arg_names`: the source matches only
`Pat::Ident` and treats every other pattern uniformly (keeping just its token
text for the panic message). -/
inductive Pat where
  | identPat (name : String)
  | otherPat (tokens : String)
deriving DecidableEq, Repr

/-- Token text of a pattern (`into_token_stream` rendering). -/
def Pat.tokens : Pat → String
  | .identPat n => n
  | .otherPat t => t

/-- `syn::FnArg`: a receiver (`self`, `&self`, ...; token text kept) or a
typed argument `pat : ty`. -/
inductive FnArg where
  | receiver (tokens : String)
  | typed (pat : Pat) (tyTokens : String)
deriving DecidableEq, Repr

/-- Token text of an argument (`into_token_stream` rendering). -/
def FnArg.tokens : FnArg → String
  | .receiver t => t
  | .typed p ty => p.tokens ++ " : " ++ ty

/-- `syn::GenericParam`: type, lifetime or const parameter, each carrying its
identifier. -/
inductive GenericParam where
  | typeP (ident : String)
  | lifetimeP (ident : String)
  | constP (ident : String)
deriving DecidableEq, Repr

/-- `syn::Signature`: the pieces of a parsed fn signature that
`header_builder.rs` reads. -/
structure Signature where
  ident : String
  generics : List GenericParam
  inputs : List FnArg
deriving DecidableEq, Repr

/-- `FnHeaderBuilder`: the declaring context of the instrumented function.
`TraitImpl` carries the trait path already rendered to token text. -/
inductive FnHeaderBuilder where
  | StaticFn
  | StructImpl
  | TraitDefault
  | TraitImpl (path : String)
deriving DecidableEq, Repr

def MOCKTOPUS_CRATE_NAME : String := "__mocktopus_crate__"

def STD_CRATE_NAME : String := "__mocktopus_std__"

def ARGS_TO_CONTINUE_NAME : String := "__mocktopus_args_to_continue__"

def ARGS_TO_RETURN_NAME : String := "__mocktopus_args_to_return__"

def UNWIND_DATA_NAME : String := "__mocktopus_unwind_data__"

/-- The `error_msg!` macro. -/
def error_msg (msg : String) : String := "Mocktopus internal error: " ++ msg

/-- Body of the closure in `iter_fn_arg_names`: a receiver yields `self`, a
typed argument with a simple identifier pattern yields that identifier, and
anything else panics (modelled as `Except.error`) with a message naming the
offending argument. -/
def fn_arg_name : FnArg → Except String String
  | .receiver _ => .ok "self"
  | .typed (.identPat id) _ => .ok id
  | arg => .error (error_msg "invalid fn arg type" ++ ": \x27" ++ arg.tokens ++ "\x27")

/-- `iter_fn_arg_names`: the names of all argument bindings in declared order;
the iterator is consumed left to right, so its panic on the first unsupported
argument is the first error. -/
def iter_fn_arg_names : List FnArg → Except String (List String)
  | [] => .ok []
  | a :: rest =>
    match fn_arg_name a with
    | .error e => .error e
    | .ok n =>
      match iter_fn_arg_names rest with
      | .error e => .error e
      | .ok ns => .ok (n :: ns)

/-- `get_generic_param_name`: `Some` of the identifier for a type parameter,
`None` for every other generic parameter. -/
def get_generic_param_name : GenericParam → Option String
  | .typeP t => some t
  | _ => none

/-- The sequence of names written by `write_fn_generics`
(`filter_map(get_generic_param_name)` over the declared parameter list). -/
def fn_generics_names (fn_decl : Signature) : List String :=
  fn_decl.generics.filterMap get_generic_param_name

/-- `write_fn_generics`: each retained name followed by a comma. -/
def write_fn_generics (fn_decl : Signature) : String :=
  String.join ((fn_generics_names fn_decl).map (fun param => param ++ ","))

/-- `write_trait_path`: the trait path's token stream (kept as the string the
model carries). -/
def write_trait_path (path : String) : String := path

/-- `write_full_fn_name`: context-dependent prefix, then
`ident::<generics>`. -/
def write_full_fn_name (builder : FnHeaderBuilder) (fn_decl : Signature) : String :=
  (match builder with
    | .StaticFn => ""
    | .StructImpl | .TraitDefault => "Self::"
    | .TraitImpl path => "<Self as " ++ write_trait_path path ++ ">::")
  ++ fn_decl.ident ++ "::<" ++ write_fn_generics fn_decl ++ ">"

/-- One element of the extraction tuple:
`{std}::mem::transmute_copy(&name), `. -/
def extract_arg_expr (name : String) : String :=
  STD_CRATE_NAME ++ "::mem::transmute_copy(&" ++ name ++ "), "

/-- `write_extract_args`: `()` for an empty argument list, otherwise one
`transmute_copy` of each binding, in declared order, inside a tuple
expression. -/
def write_extract_args (fn_args : List FnArg) : Except String String :=
  if fn_args.isEmpty then
    .ok "()"
  else
    match iter_fn_arg_names fn_args with
    | .error e => .error e
    | .ok names => .ok ("(" ++ String.join (names.map extract_arg_expr) ++ ")")

/-- One restore statement, at tuple index `idx`:
`{std}::mem::swap(&mut *(&name as *const _ as *mut _), &mut {tuple}.idx);`. -/
def restore_swap_stmt (name : String) (idx : Nat) : String :=
  STD_CRATE_NAME ++ "::mem::swap(&mut *(&" ++ name ++ " as *const _ as *mut _), &mut "
    ++ ARGS_TO_CONTINUE_NAME ++ "." ++ toString idx ++ ");\n"

/-- `write_restore_args`: `()` for an empty argument list, otherwise a block
with one swap per binding (enumerated in declared order) followed by
`mem::forget` of the tuple. -/
def write_restore_args (fn_args : List FnArg) : Except String String :=
  if fn_args.isEmpty then
    .ok "()\n"
  else
    match iter_fn_arg_names fn_args with
    | .error e => .error e
    | .ok names =>
        .ok ("\x7b\n"
          ++ String.join (names.enum.map (fun p => restore_swap_stmt p.2 p.1))
          ++ STD_CRATE_NAME ++ "::mem::forget(" ++ ARGS_TO_CONTINUE_NAME ++ ");\n"
          ++ "\x7d\n")

/-- One forget statement: `{std}::mem::forget(name);`. -/
def forget_arg_stmt (name : String) : String :=
  STD_CRATE_NAME ++ "::mem::forget(" ++ name ++ ");\n"

/-- `write_forget_args`: `mem::forget` of every binding, in declared order. -/
def write_forget_args (fn_args : List FnArg) : Except String String :=
  match iter_fn_arg_names fn_args with
  | .error e => .error e
  | .ok names => .ok (String.join (names.map forget_arg_stmt))

/-- The raw-string template of `FnHeaderBuilder::build`, with the five
formatting holes filled in (brace characters written with escapes). -/
def headerTemplate (full_fn_name extract_args restore_args forget_args : String) : String :=
  "\n            unsafe \x7b\n                extern crate mocktopus as "
  ++ MOCKTOPUS_CRATE_NAME ++ ";\n                extern crate std as "
  ++ STD_CRATE_NAME ++ ";\n\n                #[allow(clippy::forget_copy, clippy::forget_ref, clippy::forget_non_drop)]\n                match "
  ++ STD_CRATE_NAME ++ "::panic::catch_unwind(" ++ STD_CRATE_NAME
  ++ "::panic::AssertUnwindSafe (\n                        || "
  ++ MOCKTOPUS_CRATE_NAME ++ "::mocking::Mockable::call_mock(&"
  ++ full_fn_name ++ ", " ++ extract_args ++ "))) \x7b\n                    Ok("
  ++ MOCKTOPUS_CRATE_NAME ++ "::mocking::MockResult::Continue(mut "
  ++ ARGS_TO_CONTINUE_NAME ++ ")) => " ++ restore_args
  ++ ",\n                    Ok(" ++ MOCKTOPUS_CRATE_NAME
  ++ "::mocking::MockResult::Return(" ++ ARGS_TO_RETURN_NAME
  ++ ")) => \x7b\n                        " ++ forget_args
  ++ "\n                        let returned = " ++ STD_CRATE_NAME
  ++ "::mem::transmute_copy(&" ++ ARGS_TO_RETURN_NAME
  ++ ");\n                        " ++ STD_CRATE_NAME ++ "::mem::forget("
  ++ ARGS_TO_RETURN_NAME
  ++ ");\n                        return returned;\n                    \x7d,\n                    Err("
  ++ UNWIND_DATA_NAME ++ ") => \x7b\n                        " ++ forget_args
  ++ "\n                        " ++ STD_CRATE_NAME ++ "::panic::resume_unwind("
  ++ UNWIND_DATA_NAME
  ++ ");\n                    \x7d,\n                \x7d\n            \x7d"

/-- The `header_str` computed by `FnHeaderBuilder::build` (before the parse
and re-spanning steps); a synthesis-time panic is an error. -/
def buildHeaderStr (builder : FnHeaderBuilder) (fn_decl : Signature) :
    Except String String :=
  match write_extract_args fn_decl.inputs with
  | .error e => .error e
  | .ok extract =>
    match write_restore_args fn_decl.inputs with
    | .error e => .error e
    | .ok restore =>
      match write_forget_args fn_decl.inputs with
      | .error e => .error e
      | .ok forget =>
          .ok (headerTemplate (write_full_fn_name builder fn_decl) extract restore forget)

/-! ### Statement-level model of the resolution branches

The statements emitted into the three `match` arms of the template, one
constructor per statement form.  `idx` is the declared position that the
binding name denotes (argument names of a Rust fn are distinct, so a name
resolves to exactly one declared slot); the renderer below uses only the name,
the semantics only the position. -/

/-- A statement of a synthesized resolution branch. -/
inductive HeaderStmt where
  | swapArg (name : String) (idx : Nat)
  | forgetTuple
  | forgetArg (name : String) (idx : Nat)
  | transmuteCopyReturn
  | forgetReturnWrapper
  | returnStmt
  | resumeUnwindStmt
deriving DecidableEq, Repr

/-- Rust text of a branch statement (matching the strings the writers and the
template emit; the fixed statements appear in the template without their
surrounding indentation). -/
def renderStmt : HeaderStmt → String
  | .swapArg n i => restore_swap_stmt n i
  | .forgetTuple => STD_CRATE_NAME ++ "::mem::forget(" ++ ARGS_TO_CONTINUE_NAME ++ ");\n"
  | .forgetArg n _ => forget_arg_stmt n
  | .transmuteCopyReturn =>
      "let returned = " ++ STD_CRATE_NAME ++ "::mem::transmute_copy(&"
        ++ ARGS_TO_RETURN_NAME ++ ");\n"
  | .forgetReturnWrapper => STD_CRATE_NAME ++ "::mem::forget(" ++ ARGS_TO_RETURN_NAME ++ ");\n"
  | .returnStmt => "return returned;\n"
  | .resumeUnwindStmt =>
      STD_CRATE_NAME ++ "::panic::resume_unwind(" ++ UNWIND_DATA_NAME ++ ");\n"

/-- The swap statements of `write_restore_args`, pairing the names (from
position `k` on) with their tuple indices, as `enumerate()` does. -/
def restoreStmtsFrom (k : Nat) : List String → List HeaderStmt
  | [] => []
  | n :: ns => .swapArg n k :: restoreStmtsFrom (k + 1) ns

/-- The Continue arm (`write_restore_args`, non-empty case): one swap per
binding in declared order, then `mem::forget` of the tuple. -/
def restoreStmts (names : List String) : List HeaderStmt :=
  restoreStmtsFrom 0 names ++ [.forgetTuple]

/-- The forget statements of `write_forget_args`, annotated with the declared
positions of the names. -/
def forgetStmtsFrom (k : Nat) : List String → List HeaderStmt
  | [] => []
  | n :: ns => .forgetArg n k :: forgetStmtsFrom (k + 1) ns

/-- The Return arm of the template: `write_forget_args`, then the transmute of
the substitute value, `mem::forget` of its wrapper, and `return`. -/
def returnStmts (names : List String) : List HeaderStmt :=
  forgetStmtsFrom 0 names ++ [.transmuteCopyReturn, .forgetReturnWrapper, .returnStmt]

/-- The Err (unwind) arm of the template: `write_forget_args`, then
`resume_unwind` of the captured payload. -/
def unwindStmts (names : List String) : List HeaderStmt :=
  forgetStmtsFrom 0 names ++ [.resumeUnwindStmt]

/-! ### Operational semantics of a resolution branch

One call frame at resolution time: the original bindings' storage (bit
patterns, declared order) and their pending-destructor flags, the tuple
returned by the callback on the Continue path, the substitute value's wrapper
on the Return path, and the captured unwind payload on the Err path. -/

/-- State of the call frame while a resolution branch executes. -/
structure ProtoState where
  argSlots : List Bits
  argLive : List Bool
  tupleSlots : List Bits
  tupleLive : Bool
  wrapperBits : Bits
  wrapperLive : Bool
  returnedBits : Option Bits
  unwindPayload : Bits
deriving DecidableEq, Repr

/-- How a resolution branch ends: fall through into the original body, return
a value, or re-raise an unwind payload. -/
inductive Outcome where
  | fallthrough
  | ret (val : Bits)
  | unwound (payload : Bits)
deriving DecidableEq, Repr

/-- Effect of one non-control statement: a swap exchanges the bit patterns of
binding `i` and tuple element `i`; a forget clears the pending-destructor flag
of its target; the transmute bit-copies the wrapper into `returned`. -/
def execStep (st : ProtoState) : HeaderStmt → ProtoState
  | .swapArg _ i =>
      { st with
        argSlots := st.argSlots.set i (st.tupleSlots.getD i 0)
        tupleSlots := st.tupleSlots.set i (st.argSlots.getD i 0) }
  | .forgetTuple => { st with tupleLive := false }
  | .forgetArg _ i => { st with argLive := st.argLive.set i false }
  | .transmuteCopyReturn => { st with returnedBits := some st.wrapperBits }
  | .forgetReturnWrapper => { st with wrapperLive := false }
  | .returnStmt => st
  | .resumeUnwindStmt => st

/-- Run a statement list: `return` and `resume_unwind` end the branch
immediately with the corresponding outcome; an exhausted list falls through
into the original body. -/
def execStmts : List HeaderStmt → ProtoState → ProtoState × Outcome
  | [], st => (st, .fallthrough)
  | .returnStmt :: _, st => (st, .ret (st.returnedBits.getD 0))
  | .resumeUnwindStmt :: _, st => (st, .unwound st.unwindPayload)
  | s :: rest, st => execStmts rest (execStep st s)

/-- Run a list of non-control statements as a pure state transformer. -/
def execList (l : List HeaderStmt) (st : ProtoState) : ProtoState :=
  l.foldl execStep st

theorem execList_cons (s : HeaderStmt) (l : List HeaderStmt) (st : ProtoState) :
    execList (s :: l) st = execList l (execStep st s) := rfl

/-! ### Helper lemmas about `String.join` -/

theorem foldl_append_acc (l : List String) :
    ∀ acc : String, l.foldl (· ++ ·) acc = acc ++ l.foldl (· ++ ·) "" := by
  induction l with
  | nil => intro acc; simp
  | cons s l ih =>
      intro acc
      simp only [List.foldl]
      rw [ih (acc ++ s), ih ("" ++ s), String.empty_append, String.append_assoc]

theorem join_cons (s : String) (l : List String) :
    String.join (s :: l) = s ++ String.join l := by
  simp only [String.join, List.foldl]
  rw [foldl_append_acc l ("" ++ s), String.empty_append]

theorem join_nil : String.join ([] : List String) = "" := rfl

theorem join_append_str (a b : List String) :
    String.join (a ++ b) = String.join a ++ String.join b := by
  induction a with
  | nil => simp [String.join]
  | cons s a ih => simp only [List.cons_append, join_cons, ih, String.append_assoc]

/-! ### The statement lists render to exactly the writers' strings -/

theorem enumFrom_map_swap (ns : List String) :
    ∀ k, (ns.enumFrom k).map (fun p => restore_swap_stmt p.2 p.1) =
      (restoreStmtsFrom k ns).map renderStmt := by
  induction ns with
  | nil => intro k; rfl
  | cons n ns ih => intro k; simp [restoreStmtsFrom, renderStmt, ih]

theorem forget_map_render (ns : List String) :
    ∀ k, ns.map forget_arg_stmt = (forgetStmtsFrom k ns).map renderStmt := by
  induction ns with
  | nil => intro k; rfl
  | cons n ns ih =>
      intro k
      simp only [forgetStmtsFrom, List.map_cons]
      rw [ih (k + 1)]
      rfl

/-- `write_restore_args` on a non-empty argument list emits exactly the
rendered Continue-arm statement list inside a block. -/
theorem write_restore_args_eq (fn_args : List FnArg) (names : List String)
    (h : iter_fn_arg_names fn_args = .ok names) (hne : fn_args ≠ []) :
    write_restore_args fn_args =
      .ok ("\x7b\n" ++ String.join ((restoreStmts names).map renderStmt) ++ "\x7d\n") := by
  unfold write_restore_args
  rw [if_neg (by simpa using hne), h]
  simp only [restoreStmts, List.map_append, join_append_str, List.enum, enumFrom_map_swap]
  simp [join_cons, join_nil, renderStmt, String.append_assoc]

/-- `write_forget_args` emits exactly the rendered forget statements. -/
theorem write_forget_args_eq (fn_args : List FnArg) (names : List String)
    (h : iter_fn_arg_names fn_args = .ok names) :
    write_forget_args fn_args =
      .ok (String.join ((forgetStmtsFrom 0 names).map renderStmt)) := by
  unfold write_forget_args
  rw [h]
  show Except.ok (String.join (names.map forget_arg_stmt)) = _
  rw [forget_map_render names 0]

/-! ### Effect of the swap and forget statement sequences -/

theorem execStmts_restoreFrom_append (ns : List String) :
    ∀ (k : Nat) (rest : List HeaderStmt) (st : ProtoState),
      execStmts (restoreStmtsFrom k ns ++ rest) st =
        execStmts rest (execList (restoreStmtsFrom k ns) st) := by
  induction ns with
  | nil => intro k rest st; rfl
  | cons n ns ih =>
      intro k rest st
      show execStmts (restoreStmtsFrom (k + 1) ns ++ rest) (execStep st (.swapArg n k)) = _
      rw [ih (k + 1) rest (execStep st (.swapArg n k))]
      rfl

theorem execStmts_forgetFrom_append (ns : List String) :
    ∀ (k : Nat) (rest : List HeaderStmt) (st : ProtoState),
      execStmts (forgetStmtsFrom k ns ++ rest) st =
        execStmts rest (execList (forgetStmtsFrom k ns) st) := by
  induction ns with
  | nil => intro k rest st; rfl
  | cons n ns ih =>
      intro k rest st
      show execStmts (forgetStmtsFrom (k + 1) ns ++ rest) (execStep st (.forgetArg n k)) = _
      rw [ih (k + 1) rest (execStep st (.forgetArg n k))]
      rfl

theorem execList_restoreFrom_fields (ns : List String) :
    ∀ (k : Nat) (st : ProtoState),
      (execList (restoreStmtsFrom k ns) st).argLive = st.argLive ∧
      (execList (restoreStmtsFrom k ns) st).tupleLive = st.tupleLive ∧
      (execList (restoreStmtsFrom k ns) st).wrapperBits = st.wrapperBits ∧
      (execList (restoreStmtsFrom k ns) st).wrapperLive = st.wrapperLive ∧
      (execList (restoreStmtsFrom k ns) st).returnedBits = st.returnedBits ∧
      (execList (restoreStmtsFrom k ns) st).unwindPayload = st.unwindPayload ∧
      (execList (restoreStmtsFrom k ns) st).argSlots.length = st.argSlots.length ∧
      (execList (restoreStmtsFrom k ns) st).tupleSlots.length = st.tupleSlots.length := by
  induction ns with
  | nil => intro k st; exact ⟨rfl, rfl, rfl, rfl, rfl, rfl, rfl, rfl⟩
  | cons n ns ih =>
      intro k st
      have h := ih (k + 1) (execStep st (.swapArg n k))
      simpa [restoreStmtsFrom, execList_cons, execStep] using h

theorem execList_forgetFrom_fields (ns : List String) :
    ∀ (k : Nat) (st : ProtoState),
      (execList (forgetStmtsFrom k ns) st).argSlots = st.argSlots ∧
      (execList (forgetStmtsFrom k ns) st).tupleSlots = st.tupleSlots ∧
      (execList (forgetStmtsFrom k ns) st).tupleLive = st.tupleLive ∧
      (execList (forgetStmtsFrom k ns) st).wrapperBits = st.wrapperBits ∧
      (execList (forgetStmtsFrom k ns) st).wrapperLive = st.wrapperLive ∧
      (execList (forgetStmtsFrom k ns) st).returnedBits = st.returnedBits ∧
      (execList (forgetStmtsFrom k ns) st).unwindPayload = st.unwindPayload ∧
      (execList (forgetStmtsFrom k ns) st).argLive.length = st.argLive.length := by
  induction ns with
  | nil => intro k st; exact ⟨rfl, rfl, rfl, rfl, rfl, rfl, rfl, rfl⟩
  | cons n ns ih =>
      intro k st
      have h := ih (k + 1) (execStep st (.forgetArg n k))
      simpa [forgetStmtsFrom, execList_cons, execStep] using h

theorem execList_restoreFrom_argSlots (ns : List String) :
    ∀ (k : Nat) (st : ProtoState),
      st.argSlots.length = k + ns.length →
      st.tupleSlots.length = k + ns.length →
      ∀ j, j < k + ns.length →
        (execList (restoreStmtsFrom k ns) st).argSlots.getD j 0 =
          if j < k then st.argSlots.getD j 0 else st.tupleSlots.getD j 0 := by
  induction ns with
  | nil =>
      intro k st _ _ j hj
      have : j < k := by simpa using hj
      simp [restoreStmtsFrom, execList, this]
  | cons n ns ih =>
      intro k st ha ht j hj
      simp only [List.length_cons] at ha ht hj
      have ha1 : (execStep st (.swapArg n k)).argSlots.length = (k + 1) + ns.length := by
        simp [execStep]; omega
      have ht1 : (execStep st (.swapArg n k)).tupleSlots.length = (k + 1) + ns.length := by
        simp [execStep]; omega
      have key := ih (k + 1) (execStep st (.swapArg n k)) ha1 ht1 j (by omega)
      rw [show restoreStmtsFrom k (n :: ns) =
            HeaderStmt.swapArg n k :: restoreStmtsFrom (k + 1) ns from rfl,
          execList_cons, key]
      by_cases hlt : j < k
      · rw [if_pos (by omega), if_pos hlt]
        simp [execStep, List.getD_eq_getElem?_getD,
          List.getElem?_set_ne (show k ≠ j by omega)]
      · by_cases heq : j = k
        · subst heq
          rw [if_pos (by omega), if_neg hlt]
          simp [execStep, List.getD_eq_getElem?_getD,
            List.getElem?_set_self (show j < st.argSlots.length by omega)]
        · rw [if_neg (by omega), if_neg hlt]
          simp [execStep, List.getD_eq_getElem?_getD,
            List.getElem?_set_ne (show k ≠ j by omega)]

theorem execList_forgetFrom_argLive (ns : List String) :
    ∀ (k : Nat) (st : ProtoState),
      st.argLive.length = k + ns.length →
      ∀ j, j < k + ns.length →
        (execList (forgetStmtsFrom k ns) st).argLive.getD j true =
          if j < k then st.argLive.getD j true else false := by
  induction ns with
  | nil =>
      intro k st _ j hj
      have : j < k := by simpa using hj
      simp [forgetStmtsFrom, execList, this]
  | cons n ns ih =>
      intro k st ha j hj
      simp only [List.length_cons] at ha hj
      have ha1 : (execStep st (.forgetArg n k)).argLive.length = (k + 1) + ns.length := by
        simp [execStep]; omega
      have key := ih (k + 1) (execStep st (.forgetArg n k)) ha1 j (by omega)
      rw [show forgetStmtsFrom k (n :: ns) =
            HeaderStmt.forgetArg n k :: forgetStmtsFrom (k + 1) ns from rfl,
          execList_cons, key]
      by_cases hlt : j < k
      · rw [if_pos (by omega), if_pos hlt]
        simp [execStep, List.getD_eq_getElem?_getD,
          List.getElem?_set_ne (show k ≠ j by omega)]
      · by_cases heq : j = k
        · subst heq
          rw [if_pos (by omega), if_neg hlt]
          simp [execStep, List.getD_eq_getElem?_getD,
            List.getElem?_set_self (show j < st.argLive.length by omega)]
        · rw [if_neg (by omega), if_neg hlt]

/-! ### proc_macro2 token trees and the re-spanning pass

`create_call_site_spanned_stmt` maps `make_token_tree_span_call_site` over the
parsed header's tokens.  Spans are abstract values (`Nat`);
`proc_macro2::Group::new` gives a freshly built group the default
`Span::call_site()` span, modelled as the distinguished value
`callSiteSpan`. -/

/-- The span `proc_macro2::Group::new` assigns to a rebuilt group. -/
def callSiteSpan : Nat := 0

mutual

/-- A `proc_macro2::TokenTree`: a non-group token (ident, punct or literal,
content kept as text) or a delimited group with its own span and inner
stream. -/
inductive TokenTree where
  | leaf (content : String) (span : Nat)
  | group (delim : Nat) (span : Nat) (stream : TokenStream)

/-- A `proc_macro2::TokenStream` (the nested token list of a group). -/
inductive TokenStream where
  | nil
  | cons (tt : TokenTree) (rest : TokenStream)

end

mutual

/-- `make_token_tree_span_call_site`: `set_span(span)` on the token tree,
then, for a group, rebuild it with `Group::new` over the recursively mapped
inner stream — `Group::new` gives the rebuilt group `callSiteSpan`, replacing
the span just set on the group itself. -/
def make_token_tree_span_call_site (span : Nat) : TokenTree → TokenTree
  | .leaf c _ => .leaf c span
  | .group d _ ts => .group d callSiteSpan (mapStream span ts)

/-- The `map(|tt| make_token_tree_span_call_site(tt, span)).collect()` over a
group's inner stream. -/
def mapStream (span : Nat) : TokenStream → TokenStream
  | .nil => .nil
  | .cons t ts => .cons (make_token_tree_span_call_site span t) (mapStream span ts)

end

mutual

/-- Does every token, groups included, carry span `s`? -/
def allSpansEqTree (s : Nat) : TokenTree → Bool
  | .leaf _ sp => sp == s
  | .group _ sp ts => sp == s && allSpansEqStream s ts

def allSpansEqStream (s : Nat) : TokenStream → Bool
  | .nil => true
  | .cons t ts => allSpansEqTree s t && allSpansEqStream s ts

end

mutual

/-- Span shape after the pass: every non-group token carries `s`, every group
carries the call-site default. -/
def respannedTree (s : Nat) : TokenTree → Bool
  | .leaf _ sp => sp == s
  | .group _ sp ts => sp == callSiteSpan && respannedStream s ts

def respannedStream (s : Nat) : TokenStream → Bool
  | .nil => true
  | .cons t ts => respannedTree s t && respannedStream s ts

end

mutual

/-- Forget all spans: token content and nesting structure only. -/
def eraseTree : TokenTree → TokenTree
  | .leaf c _ => .leaf c 0
  | .group d _ ts => .group d 0 (eraseStream ts)

def eraseStream : TokenStream → TokenStream
  | .nil => .nil
  | .cons t ts => .cons (eraseTree t) (eraseStream ts)

end

mutual

theorem respanned_after_tree (s : Nat) :
    ∀ t : TokenTree, respannedTree s (make_token_tree_span_call_site s t) = true
  | .leaf c sp => by
      simp [make_token_tree_span_call_site, respannedTree]
  | .group d sp ts => by
      simp only [make_token_tree_span_call_site, respannedTree]
      simp [respanned_after_stream s ts]

theorem respanned_after_stream (s : Nat) :
    ∀ ts : TokenStream, respannedStream s (mapStream s ts) = true
  | .nil => rfl
  | .cons t ts => by
      simp only [mapStream, respannedStream]
      simp [respanned_after_tree s t, respanned_after_stream s ts]

end

mutual

theorem erase_after_tree (s : Nat) :
    ∀ t : TokenTree, eraseTree (make_token_tree_span_call_site s t) = eraseTree t
  | .leaf c sp => rfl
  | .group d sp ts => by
      simp only [make_token_tree_span_call_site, eraseTree]
      rw [erase_after_stream s ts]

theorem erase_after_stream (s : Nat) :
    ∀ ts : TokenStream, eraseStream (mapStream s ts) = eraseStream ts
  | .nil => rfl
  | .cons t ts => by
      simp only [mapStream, eraseStream]
      rw [erase_after_tree s t, erase_after_stream s ts]

end

/-! ### PackageInfo (src/mtest/src/package_info.rs) -/

/-- A `PathBuf`, as its list of components. -/
abbrev PathBuf := List String

/-- `PathBuf::pop`: remove the final component; `false` (here `none`) on an
empty path. -/
def PathBuf.pop : PathBuf → Option PathBuf
  | [] => none
  | p => some p.dropLast

structure PackageInfo where
  id : String
  dep_root : Option PathBuf
  tested_root : Option PathBuf
  files : List PathBuf
deriving DecidableEq, Repr

/-- `PackageInfo::new`.  `get_package_files` queries cargo and the host
filesystem, so the file list it returns is taken as the input `files`; the
`panic!("43")` raised when `pop` fails is `none`. -/
def PackageInfo.new (id : String) (manifest_path : PathBuf) (is_dep : Bool)
    (files : List PathBuf) : Option PackageInfo :=
  match PathBuf.pop manifest_path with
  | none => none
  | some path =>
      let roots : Option PathBuf × Option PathBuf :=
        match is_dep with
        | true => (some path, none)
        | false => (none, some path)
      some ⟨id, roots.1, roots.2, files⟩

/-! ### Spec-side classification of generic parameters (for C5) -/

/-- Is this a type generic parameter? (spec wording: only type parameters
participate in the identity) -/
def GenericParam.isType : GenericParam → Bool
  | .typeP _ => true
  | .lifetimeP _ => false
  | .constP _ => false

/-- The identifier of a generic parameter of any kind. -/
def GenericParam.paramIdent : GenericParam → String
  | .typeP i => i
  | .lifetimeP i => i
  | .constP i => i

/-! ## Claim theorems -/

/-- C4: the qualified-name prefix per declaring context: a free function
yields the bare identifier, an inherent/static method and a default trait
method yield `Self::ident`, and an explicit trait-impl method with trait path
`P` yields `<Self as P>::ident`; each of the four forms is suffixed with the
explicit generic-argument list `::<...>`. -/
theorem full_fn_name_four_contexts (fn_decl : Signature) :
    write_full_fn_name .StaticFn fn_decl
        = fn_decl.ident ++ "::<" ++ write_fn_generics fn_decl ++ ">" ∧
    write_full_fn_name .StructImpl fn_decl
        = "Self::" ++ fn_decl.ident ++ "::<" ++ write_fn_generics fn_decl ++ ">" ∧
    write_full_fn_name .TraitDefault fn_decl
        = "Self::" ++ fn_decl.ident ++ "::<" ++ write_fn_generics fn_decl ++ ">" ∧
    ∀ path, write_full_fn_name (.TraitImpl path) fn_decl
        = "<Self as " ++ path ++ ">::" ++ fn_decl.ident ++ "::<"
            ++ write_fn_generics fn_decl ++ ">" :=
  ⟨rfl, rfl, rfl, fun _ => rfl⟩

/-- C5: the generic-argument list names, in declared order, exactly the type
generic parameters of the signature; lifetime and const parameters are
omitted, and each retained name is suffixed with a comma in the written
list. -/
theorem generics_list_exactly_type_params (fn_decl : Signature) :
    fn_generics_names fn_decl
        = (fn_decl.generics.filter GenericParam.isType).map GenericParam.paramIdent ∧
    write_fn_generics fn_decl
        = String.join (((fn_decl.generics.filter GenericParam.isType).map
            GenericParam.paramIdent).map (fun n => n ++ ",")) := by
  have h : ∀ l : List GenericParam, l.filterMap get_generic_param_name
      = (l.filter GenericParam.isType).map GenericParam.paramIdent := by
    intro l
    induction l with
    | nil => rfl
    | cons p l ih =>
        cases p <;>
          simp [get_generic_param_name, GenericParam.isType, GenericParam.paramIdent,
            List.filter, ih]
  constructor
  · exact h fn_decl.generics
  · unfold write_fn_generics fn_generics_names
    rw [h fn_decl.generics]

/-- C7: the Signature Projector maps the receiver to the fixed name `self`
and a simple identifier binding to its identifier; any other pattern is a
fatal synthesis error whose diagnostic carries the offending parameter's
tokens, and one such parameter anywhere in the list makes the whole
name-projection abort with an error. -/
theorem signature_projector_names :
    (∀ tokens, fn_arg_name (.receiver tokens) = .ok "self") ∧
    (∀ name ty, fn_arg_name (.typed (.identPat name) ty) = .ok name) ∧
    (∀ toks ty, fn_arg_name (.typed (.otherPat toks) ty)
        = .error ("Mocktopus internal error: invalid fn arg type: \x27"
            ++ (FnArg.typed (.otherPat toks) ty).tokens ++ "\x27")) ∧
    (∀ (args : List FnArg) (toks ty : String),
      FnArg.typed (.otherPat toks) ty ∈ args →
        ∃ e, iter_fn_arg_names args = .error e) := by
  refine ⟨fun _ => rfl, fun _ _ => rfl, fun toks ty => rfl, ?_⟩
  intro args toks ty
  induction args with
  | nil => intro h; cases h
  | cons a args ih =>
      intro h
      rcases List.mem_cons.mp h with h1 | h2
      · subst h1
        exact ⟨error_msg "invalid fn arg type" ++ ": \x27"
            ++ (FnArg.typed (.otherPat toks) ty).tokens ++ "\x27",
          by simp [iter_fn_arg_names, fn_arg_name]⟩
      · cases ha : fn_arg_name a with
        | error e => exact ⟨e, by simp [iter_fn_arg_names, ha]⟩
        | ok n =>
            obtain ⟨e, he⟩ := ih h2
            exact ⟨e, by simp [iter_fn_arg_names, ha, he]⟩

/-- Forgetting every binding turns an all-live destructor vector into an
all-suppressed one. -/
theorem forget_all_replicate (names : List String) (st0 : ProtoState)
    (h : st0.argLive = List.replicate names.length true) :
    (execList (forgetStmtsFrom 0 names) st0).argLive
      = List.replicate names.length false := by
  have hlen : st0.argLive.length = 0 + names.length := by simp [h]
  have hpt := execList_forgetFrom_argLive names 0 st0 hlen
  obtain ⟨_, _, _, _, _, _, _, hL⟩ := execList_forgetFrom_fields names 0 st0
  apply List.ext_getElem
  · simp [hL, h]
  · intro i h1 h2
    have hi : i < 0 + names.length := by simp [hL, h] at h1; omega
    have := hpt i hi
    rw [if_neg (by omega)] at this
    have e1 : (execList (forgetStmtsFrom 0 names) st0).argLive.getD i true
        = (execList (forgetStmtsFrom 0 names) st0).argLive[i] := by
      simp [List.getD_eq_getElem?_getD, List.getElem?_eq_getElem h1]
    rw [e1] at this
    simp [this]

/-- C1: on the Continue outcome, the resolution branch leaves every original
argument binding holding exactly the corresponding element of the (possibly
mutated) returned tuple, suppresses the tuple's own destructor, leaves the
bindings' destructor flags untouched, and falls through into the original
body; the emitted text of the branch is exactly the rendered swap-per-binding
statement list followed by the tuple forget. -/
theorem continue_branch_restores_args
    (fn_args : List FnArg) (names : List String)
    (hnames : iter_fn_arg_names fn_args = .ok names) (hne : fn_args ≠ [])
    (argBits tupleBits : List Bits) (live0 : List Bool)
    (ha : argBits.length = names.length) (ht : tupleBits.length = names.length)
    (wb : Bits) (wlive : Bool) (rb : Option Bits) (up : Bits) :
    (execStmts (restoreStmts names)
        ⟨argBits, live0, tupleBits, true, wb, wlive, rb, up⟩).2 = .fallthrough ∧
    (execStmts (restoreStmts names)
        ⟨argBits, live0, tupleBits, true, wb, wlive, rb, up⟩).1.argSlots = tupleBits ∧
    (execStmts (restoreStmts names)
        ⟨argBits, live0, tupleBits, true, wb, wlive, rb, up⟩).1.tupleLive = false ∧
    (execStmts (restoreStmts names)
        ⟨argBits, live0, tupleBits, true, wb, wlive, rb, up⟩).1.argLive = live0 ∧
    write_restore_args fn_args =
      .ok ("\x7b\n" ++ String.join ((restoreStmts names).map renderStmt) ++ "\x7d\n") := by
  set st0 : ProtoState := ⟨argBits, live0, tupleBits, true, wb, wlive, rb, up⟩ with hst0
  have hrun : execStmts (restoreStmts names) st0
      = ({ execList (restoreStmtsFrom 0 names) st0 with tupleLive := false },
         Outcome.fallthrough) := by
    unfold restoreStmts
    rw [execStmts_restoreFrom_append]
    rfl
  obtain ⟨hL, _, _, _, _, _, hAL, _⟩ := execList_restoreFrom_fields names 0 st0
  have hlen0a : st0.argSlots.length = 0 + names.length := by simp [hst0, ha]
  have hlen0t : st0.tupleSlots.length = 0 + names.length := by simp [hst0, ht]
  have hpt := execList_restoreFrom_argSlots names 0 st0 hlen0a hlen0t
  have hslots : (execList (restoreStmtsFrom 0 names) st0).argSlots = tupleBits := by
    apply List.ext_getElem
    · simp [hAL, hst0, ha, ht]
    · intro i h1 h2
      have hi : i < 0 + names.length := by omega
      have hcell := hpt i hi
      rw [if_neg (by omega)] at hcell
      have e1 : (execList (restoreStmtsFrom 0 names) st0).argSlots.getD i 0
          = (execList (restoreStmtsFrom 0 names) st0).argSlots[i] := by
        simp [List.getD_eq_getElem?_getD, List.getElem?_eq_getElem h1]
      have h2t : i < st0.tupleSlots.length := by omega
      have e2 : st0.tupleSlots.getD i 0 = st0.tupleSlots[i] := by
        simp [List.getD_eq_getElem?_getD, List.getElem?_eq_getElem h2t]
      rw [e1, e2] at hcell
      simpa [hst0] using hcell
  refine ⟨by rw [hrun], by rw [hrun]; exact hslots, by rw [hrun], ?_,
    write_restore_args_eq fn_args names hnames hne⟩
  rw [hrun]
  show (execList (restoreStmtsFrom 0 names) st0).argLive = live0
  rw [hL]

/-- C2: on the Return outcome, the resolution branch suppresses the
destructor of every original argument binding, bit-copies the substitute
value out of its wrapper as the returned value, suppresses the wrapper's
destructor, and ends the call with that value — never falling through into
the original body; the forget statements it emits are exactly the rendered
per-binding forget list. -/
theorem return_branch_skips_body
    (fn_args : List FnArg) (names : List String)
    (hnames : iter_fn_arg_names fn_args = .ok names)
    (argBits tupleBits : List Bits) (tlive : Bool) (wb : Bits) (up : Bits) :
    (execStmts (returnStmts names)
        ⟨argBits, List.replicate names.length true, tupleBits, tlive,
          wb, true, none, up⟩).2 = .ret wb ∧
    (execStmts (returnStmts names)
        ⟨argBits, List.replicate names.length true, tupleBits, tlive,
          wb, true, none, up⟩).2 ≠ .fallthrough ∧
    (execStmts (returnStmts names)
        ⟨argBits, List.replicate names.length true, tupleBits, tlive,
          wb, true, none, up⟩).1.argLive = List.replicate names.length false ∧
    (execStmts (returnStmts names)
        ⟨argBits, List.replicate names.length true, tupleBits, tlive,
          wb, true, none, up⟩).1.wrapperLive = false ∧
    write_forget_args fn_args =
      .ok (String.join ((forgetStmtsFrom 0 names).map renderStmt)) := by
  set st0 : ProtoState := ⟨argBits, List.replicate names.length true, tupleBits, tlive,
    wb, true, none, up⟩ with hst0
  have hrun : execStmts (returnStmts names) st0
      = ({ execList (forgetStmtsFrom 0 names) st0 with
            returnedBits := some (execList (forgetStmtsFrom 0 names) st0).wrapperBits,
            wrapperLive := false },
         Outcome.ret (execList (forgetStmtsFrom 0 names) st0).wrapperBits) := by
    unfold returnStmts
    rw [execStmts_forgetFrom_append]
    rfl
  obtain ⟨_, _, _, hWB, _, _, _, _⟩ := execList_forgetFrom_fields names 0 st0
  have hfor : (execList (forgetStmtsFrom 0 names) st0).argLive
      = List.replicate names.length false :=
    forget_all_replicate names st0 rfl
  refine ⟨?_, ?_, by rw [hrun]; exact hfor, by rw [hrun],
    write_forget_args_eq fn_args names hnames⟩
  · rw [hrun, hWB]
  · rw [hrun, hWB]
    simp

/-- C3: on the Unwind outcome, the resolution branch suppresses the
destructor of every original argument binding and then re-raises the captured
unwind payload unchanged — never falling through into the original body; the
forget statements it emits are exactly the rendered per-binding forget
list. -/
theorem unwind_branch_reraises_payload
    (fn_args : List FnArg) (names : List String)
    (hnames : iter_fn_arg_names fn_args = .ok names)
    (argBits tupleBits : List Bits) (tlive : Bool) (wb : Bits) (wlive : Bool)
    (rb : Option Bits) (up : Bits) :
    (execStmts (unwindStmts names)
        ⟨argBits, List.replicate names.length true, tupleBits, tlive,
          wb, wlive, rb, up⟩).2 = .unwound up ∧
    (execStmts (unwindStmts names)
        ⟨argBits, List.replicate names.length true, tupleBits, tlive,
          wb, wlive, rb, up⟩).2 ≠ .fallthrough ∧
    (execStmts (unwindStmts names)
        ⟨argBits, List.replicate names.length true, tupleBits, tlive,
          wb, wlive, rb, up⟩).1.argLive = List.replicate names.length false ∧
    write_forget_args fn_args =
      .ok (String.join ((forgetStmtsFrom 0 names).map renderStmt)) := by
  set st0 : ProtoState := ⟨argBits, List.replicate names.length true, tupleBits, tlive,
    wb, wlive, rb, up⟩ with hst0
  have hrun : execStmts (unwindStmts names) st0
      = (execList (forgetStmtsFrom 0 names) st0,
         Outcome.unwound (execList (forgetStmtsFrom 0 names) st0).unwindPayload) := by
    unfold unwindStmts
    rw [execStmts_forgetFrom_append]
    rfl
  obtain ⟨_, _, _, _, _, _, hUP, _⟩ := execList_forgetFrom_fields names 0 st0
  have hfor : (execList (forgetStmtsFrom 0 names) st0).argLive
      = List.replicate names.length false :=
    forget_all_replicate names st0 rfl
  refine ⟨?_, ?_, by rw [hrun]; exact hfor,
    write_forget_args_eq fn_args names hnames⟩
  · rw [hrun, hUP]
  · rw [hrun, hUP]
    simp

/-- C6: the extraction expression takes one destructor-suppressing
`transmute_copy` of every argument binding, receiver included, in declared
order, into a fresh tuple expression; an empty argument list yields the empty
tuple `()`, and synthesis of the full header still happens (with the empty
tuple) rather than being skipped. -/
theorem extract_args_marshal (fn_args : List FnArg) (names : List String)
    (hnames : iter_fn_arg_names fn_args = .ok names) :
    (fn_args = [] → write_extract_args fn_args = .ok "()") ∧
    (fn_args ≠ [] → write_extract_args fn_args
        = .ok ("(" ++ String.join (names.map extract_arg_expr) ++ ")")) ∧
    (∀ (builder : FnHeaderBuilder) (fn_decl : Signature), fn_decl.inputs = [] →
      buildHeaderStr builder fn_decl
        = .ok (headerTemplate (write_full_fn_name builder fn_decl) "()" "()\n" "")) := by
  refine ⟨?_, ?_, ?_⟩
  · intro h
    subst h
    rfl
  · intro hne
    unfold write_extract_args
    rw [if_neg (by simpa using hne), hnames]
  · intro builder fn_decl hempty
    obtain ⟨id, gens, inputs⟩ := fn_decl
    simp only at hempty
    subst hempty
    rfl

/-- C8 counterexample: the claim that every token — groups included — is
assigned the original body's span is false: re-spanning a group token with
target span 5 leaves the rebuilt group carrying the call-site default span
(0), because `Group::new` replaces the span that `set_span` had just set. -/
theorem respan_group_counterexample :
    allSpansEqTree 5
      (make_token_tree_span_call_site 5 (TokenTree.group 1 7 TokenStream.nil)) = false := by
  simp [make_token_tree_span_call_site, allSpansEqTree, allSpansEqStream,
    mapStream, callSiteSpan]

/-- C8 amended: re-spanning assigns the original body's span to every
non-group token at every depth, while each delimited group itself is rebuilt
with the default call-site span; token content and nesting structure are
unchanged. -/
theorem respan_sets_leaf_spans (s : Nat) (t : TokenTree) :
    respannedTree s (make_token_tree_span_call_site s t) = true ∧
    eraseTree (make_token_tree_span_call_site s t) = eraseTree t :=
  ⟨respanned_after_tree s t, erase_after_tree s t⟩

/-- C10: whenever `PackageInfo::new` returns, `dep_root` is populated exactly
when `is_dep` holds and `tested_root` exactly otherwise, each with the
manifest path minus its final component; the other root is `None`. -/
theorem package_info_new_roots (id : String) (manifest_path : PathBuf)
    (is_dep : Bool) (files : List PathBuf) (r : PackageInfo)
    (h : PackageInfo.new id manifest_path is_dep files = some r) :
    r.dep_root = (if is_dep then some manifest_path.dropLast else none) ∧
    r.tested_root = (if is_dep then none else some manifest_path.dropLast) := by
  cases manifest_path with
  | nil => simp [PackageInfo.new, PathBuf.pop] at h
  | cons c p =>
      cases is_dep <;>
        · simp only [PackageInfo.new, PathBuf.pop, Option.some.injEq] at h
          subst h
          simp

/-! ## Witnesses: the hypothesis-bearing claim theorems evaluated at concrete
inputs -/

theorem continue_branch_restores_args_witness :
    (execStmts (restoreStmts ["self", "x"])
        ⟨[3, 4], [true, true], [7, 8], true, 0, true, none, 9⟩).1.argSlots = [7, 8] ∧
    (execStmts (restoreStmts ["self", "x"])
        ⟨[3, 4], [true, true], [7, 8], true, 0, true, none, 9⟩).1.tupleLive = false := by
  have h := continue_branch_restores_args
      [FnArg.receiver "&self", FnArg.typed (Pat.identPat "x") "u32"] ["self", "x"]
      rfl (List.cons_ne_nil _ _) [3, 4] [7, 8] [true, true] rfl rfl 0 true none 9
  exact ⟨h.2.1, h.2.2.1⟩

theorem return_branch_skips_body_witness :
    (execStmts (returnStmts ["self", "x"])
        ⟨[3, 4], [true, true], [], false, 42, true, none, 9⟩).2 = .ret 42 ∧
    (execStmts (returnStmts ["self", "x"])
        ⟨[3, 4], [true, true], [], false, 42, true, none, 9⟩).1.argLive = [false, false] ∧
    (execStmts (returnStmts ["self", "x"])
        ⟨[3, 4], [true, true], [], false, 42, true, none, 9⟩).1.wrapperLive = false := by
  have h := return_branch_skips_body
      [FnArg.receiver "&self", FnArg.typed (Pat.identPat "x") "u32"] ["self", "x"]
      rfl [3, 4] [] false 42 9
  exact ⟨h.1, h.2.2.1, h.2.2.2.1⟩

theorem unwind_branch_reraises_payload_witness :
    (execStmts (unwindStmts ["self", "x"])
        ⟨[3, 4], [true, true], [], false, 0, true, none, 9⟩).2 = .unwound 9 ∧
    (execStmts (unwindStmts ["self", "x"])
        ⟨[3, 4], [true, true], [], false, 0, true, none, 9⟩).1.argLive = [false, false] := by
  have h := unwind_branch_reraises_payload
      [FnArg.receiver "&self", FnArg.typed (Pat.identPat "x") "u32"] ["self", "x"]
      rfl [3, 4] [] false 0 true none 9
  exact ⟨h.1, h.2.2.1⟩

theorem extract_args_marshal_witness :
    write_extract_args [FnArg.receiver "&self", FnArg.typed (Pat.identPat "x") "u32"]
      = .ok ("(" ++ String.join (["self", "x"].map extract_arg_expr) ++ ")") ∧
    buildHeaderStr .StaticFn ⟨"foo", [], []⟩
      = .ok (headerTemplate (write_full_fn_name .StaticFn ⟨"foo", [], []⟩) "()" "()\n" "") := by
  have h := extract_args_marshal
      [FnArg.receiver "&self", FnArg.typed (Pat.identPat "x") "u32"] ["self", "x"] rfl
  exact ⟨h.2.1 (List.cons_ne_nil _ _), h.2.2 .StaticFn ⟨"foo", [], []⟩ rfl⟩

theorem signature_projector_names_witness :
    fn_arg_name (.receiver "&self") = .ok "self" ∧
    fn_arg_name (.typed (.identPat "x") "u32") = .ok "x" ∧
    (∃ e, iter_fn_arg_names [FnArg.typed (Pat.otherPat "(a, b)") "(u8, u8)"]
        = .error e) := by
  have h := signature_projector_names
  exact ⟨h.1 "&self", h.2.1 "x" "u32",
    h.2.2.2 _ "(a, b)" "(u8, u8)" (List.mem_cons_self _ _)⟩

theorem package_info_new_roots_witness :
    (PackageInfo.mk "a" (some ["d"]) none []).dep_root
        = (if true then some (["d", "Cargo.toml"] : PathBuf).dropLast else none) ∧
    (PackageInfo.mk "a" (some ["d"]) none []).tested_root
        = (if true then none else some (["d", "Cargo.toml"] : PathBuf).dropLast) :=
  package_info_new_roots "a" ["d", "Cargo.toml"] true [] ⟨"a", some ["d"], none, []⟩ rfl

end Mocktopus
